import Mathlib

/-
Verification development for the OpenRouter adapter (open_router_function.py).

The embedding models the Python module shallowly:
  * Python dict values are a small inductive type `PyVal`; a dict is an
    association list with Python dict lookup/assignment semantics.
  * JSON fields that are either absent, null, or a string are modelled as
    `Option String` (absent and null behave identically under `dict.get`
    truthiness in every code path the claims touch).
  * Fallible Python operations (KeyError, IndexError, AttributeError,
    json.loads failures) are modelled with `Except String`.
  * The streaming generator is modelled as a fold over the list of input
    lines, producing the list of yielded items plus how the sequence ended
    (normal exhaustion, return-after-DONE, or a raised exception).
-/

namespace OpenRouter

/-! ## Python value and dict model -/

/-- A Python value stored in a request body dict: a string, a bool, an int,
or some opaque object the adapter only passes through. -/
inductive PyVal where
  | vStr (s : String)
  | vBool (b : Bool)
  | vInt (n : Int)
  | vOpaque (tag : Nat)
deriving DecidableEq

/-- A Python dict with string keys, as an association list (real dicts have
unique keys; lookup takes the first binding). -/
abbrev PyDict := List (String × PyVal)

/-- Python truthiness of `d.get(k)` / `d.get(k, False)`: missing keys and
empty strings are falsy, a plain object is truthy. -/
def pyTruthyVal : Option PyVal → Bool
  | none => false
  | some (.vStr s) => !s.isEmpty
  | some (.vBool b) => b
  | some (.vInt n) => n != 0
  | some (.vOpaque _) => true

/-- Python dict assignment `d[k] = v`: overwrite in place when the key
exists, otherwise append the new binding (insertion order preserved). -/
def dictSet (d : PyDict) (k : String) (v : PyVal) : PyDict :=
  if d.any (fun p => p.1 == k) then
    d.map (fun p => if p.1 == k then (k, v) else p)
  else d ++ [(k, v)]

/-! ## Request normalizer (Pipe.pipe, lines 133-140) -/

/-- Python `s.split(".", 1)[-1]` over char lists: everything after the first
dot, or the whole list when there is no dot. -/
def tailAfterFirstDot : List Char → Option (List Char)
  | [] => none
  | c :: rest => if c = '.' then some rest else tailAfterFirstDot rest

/-- Python `s.split(".", 1)[-1]` on strings. -/
def splitDotTail (s : String) : String :=
  match tailAfterFirstDot s.data with
  | none => s
  | some cs => String.mk cs

/-- Python `l.replace(pat, "", 1)` over char lists: delete the leftmost
occurrence of `pat`, leaving everything else in place. -/
def removeFirstOcc (pat : List Char) : List Char → List Char
  | [] => []
  | c :: rest =>
    if pat.isPrefixOf (c :: rest) then List.drop pat.length (c :: rest)
    else c :: removeFirstOcc pat rest

/-- The literal pattern removed from model ids. -/
def reasoningPat : List Char := "reasoning/".data

/-- Line 137: `model.split(".", 1)[-1].replace("reasoning/", "", 1)`. -/
def normalizeModel (s : String) : String :=
  String.mk (removeFirstOcc reasoningPat (splitDotTail s).data)

/-- Modelled from the spec's words, for refinement comparison with
`normalizeModel`: split on the first `.` keeping the tail, then remove
`"reasoning/"` only when it is a prefix of that tail. -/
def specNormalizeModel (s : String) : String :=
  let t := splitDotTail s
  if reasoningPat.isPrefixOf t.data then String.mk (t.data.drop reasoningPat.length)
  else t

/-- Lines 133-140: build `modified_body = {**body}`, rewrite `model` when
present (an `AttributeError` is raised when the value has no `split`, i.e.
is not a string), then set `include_reasoning = True`.  The input dict is
never written through; all writes go to the copy that is returned. -/
def normalizeBody (body : PyDict) : Except String PyDict :=
  match List.lookup "model" body with
  | some (.vStr s) =>
      .ok (dictSet (dictSet body "model" (.vStr (normalizeModel s)))
            "include_reasoning" (.vBool true))
  | some _ => .error "AttributeError: split on non-str"
  | none => .ok (dictSet body "include_reasoning" (.vBool true))

/-- What `pipe` hands back on the non-raising path: the unexecuted async
generator (streaming) or the unexecuted coroutine (non-streaming), each
closed over the normalized body.  Neither has run any request code yet. -/
inductive PipeReturn where
  | streamGen (normBody : PyDict)
  | normalCoro (normBody : PyDict)
deriving DecidableEq

/-- Outcome of one call of `Pipe.pipe`: an exception escaping the call, a
returned (unexecuted) generator/coroutine, or the `json.dumps({error})`
string from the except branch. -/
inductive PipeOutcome where
  | raised (msg : String)
  | returned (r : PipeReturn)
  | errorJson (msg : String)
deriving DecidableEq

/-- Lines 142-145, the body of the `try`: `body.get("stream", False)`
selects the handler; calling an async generator function or an async
function only constructs the generator/coroutine object, which cannot
raise, so this step never produces an exception. -/
def dispatch (origBody normBody : PyDict) : Except String PipeReturn :=
  if pyTruthyVal (List.lookup "stream" origBody) then .ok (.streamGen normBody)
  else .ok (.normalCoro normBody)

/-- Lines 133-149, `Pipe.pipe`: normalization runs before the `try`, so an
exception there escapes the call; the `try` wraps only `dispatch`. -/
def pipe (body : PyDict) : PipeOutcome :=
  match normalizeBody body with
  | .error msg => .raised msg
  | .ok nb =>
    match dispatch body nb with
    | .ok r => .returned r
    | .error e => .errorJson ("Error processing request: " ++ e)

/-! ## Non-streaming reshape (Pipe._handle_normal_request, lines 171-180) -/

/-- The `message` object of one choice of the full upstream document.
`reasoning` and `content` fields are strings or absent; `extra` carries all
other fields, which the reshape must not touch. -/
structure NMessage where
  reasoning : Option String := none
  content : Option String := none
  extra : List (String × PyVal) := []
deriving DecidableEq

/-- One entry of the document's `choices` list. -/
structure NChoice where
  message : Option NMessage := none
  extra : List (String × PyVal) := []
deriving DecidableEq

/-- The full upstream JSON document of the non-streaming path. -/
structure NonStreamDoc where
  choices : Option (List NChoice) := none
  extra : List (String × PyVal) := []
deriving DecidableEq

/-- Lines 174-179: when the choice has a message carrying `reasoning`, the
message's `content` is overwritten with the tagged concatenation; reading
`choice["message"]["content"]` raises `KeyError` when `content` is absent. -/
def reshapeChoice (c : NChoice) : Except String NChoice :=
  match c.message with
  | none => .ok c
  | some m =>
    match m.reasoning with
    | none => .ok c
    | some r =>
      match m.content with
      | none => .error "KeyError: content"
      | some cont =>
        let m2 := { m with content := some ("<think>" ++ r ++ "</think>\n" ++ cont) }
        .ok { c with message := some m2 }

/-- The `for choice in data["choices"]` loop: stop at the first raising
entry, otherwise rebuild the list. -/
def reshapeChoices : List NChoice → Except String (List NChoice)
  | [] => .ok []
  | c :: rest =>
    match reshapeChoice c with
    | .error e => .error e
    | .ok c2 =>
      match reshapeChoices rest with
      | .error e => .error e
      | .ok rest2 => .ok (c2 :: rest2)

/-- Lines 173-180: reshape every choice when the `choices` key is present,
return the document unchanged otherwise. -/
def handleNormalReshape (d : NonStreamDoc) : Except String NonStreamDoc :=
  match d.choices with
  | none => .ok d
  | some cs =>
    match reshapeChoices cs with
    | .error e => .error e
    | .ok cs2 => .ok { d with choices := some cs2 }

/-- Modelled from the spec's words, for refinement comparison with
`reshapeChoice`: an entry whose message carries a reasoning field gets
`<think>{reasoning}</think>\n{content}` as its content; entries without a
reasoning field pass through unmodified. -/
def specReshapeChoice (c : NChoice) : NChoice :=
  match c.message with
  | none => c
  | some m =>
    match m.reasoning with
    | none => c
    | some r =>
      let m2 := { m with content := some ("<think>" ++ r ++ "</think>\n" ++ (m.content.getD "")) }
      { c with message := some m2 }

/-- A choice on which the reshape cannot raise: if its message carries a
reasoning field then it also carries a content field. -/
def choiceSafe (c : NChoice) : Bool :=
  match c.message with
  | none => true
  | some m => m.reasoning.isNone || m.content.isSome

/-! ## Streaming reshape (Pipe._handle_streaming_request, lines 182-264) -/

/-- Truthiness of `delta.get("reasoning")` / `choice.get("finish_reason")`:
absent or null or empty string is falsy. -/
def pyTruthyStr : Option String → Bool
  | none => false
  | some s => !s.isEmpty

/-- The `delta` object of a streamed choice. -/
structure SDelta where
  reasoning : Option String := none
  content : Option String := none
deriving DecidableEq

/-- One entry of a streamed event's `choices` list. -/
structure SChoice where
  delta : Option SDelta := none
  finish_reason : Option String := none
deriving DecidableEq

/-- One parsed `data: ` event of the upstream SSE body. -/
structure SEvent where
  id : Option String := none
  choices : Option (List SChoice) := none
deriving DecidableEq

/-- One line of the upstream body, as the loop classifies it: a line not
starting with `data: ` (skipped), a data line whose JSON payload parses to
an event, or a data line whose payload makes `json.loads` raise (for
example the upstream's own `data: [DONE]` sentinel line, whose payload
`[DONE]` is not valid JSON). -/
inductive SLine where
  | other
  | dataOk (e : SEvent)
  | dataErr (msg : String)
deriving DecidableEq

/-- The data of one chunk built by `construct_chunk`: the triggering
event's `id` (or `""`), the request's model name, and the `content` string
placed in the delta.  The full wire framing adds the constant envelope and
the emission-time `created` timestamp around these fields. -/
structure OutputChunk where
  id : String
  model : String
  content : String
deriving DecidableEq

/-- One value yielded by the generator: a phase-transition marker chunk
(content `<think>` or `</think>\n\n`), a content chunk, or the literal
termination line.  Marker and content chunks are serialized identically by
`construct_chunk`; the tag records which yield site produced the chunk. -/
inductive StreamItem where
  | marker (c : OutputChunk)
  | content (c : OutputChunk)
  | doneLine
deriving DecidableEq

/-- The content-level view of a yielded value: the chunk's `content` field,
or the literal termination line. -/
def itemText : StreamItem → String
  | .marker c => c.content
  | .content c => c.content
  | .doneLine => "data: [DONE]\n\n"

/-- Whether an item is a phase-transition marker chunk. -/
def isMarker : StreamItem → Bool
  | .marker _ => true
  | _ => false

/-- Line 241: `data.get("choices", [{}])[0]` — an absent key defaults to a
one-element list of an empty dict, a present empty list raises IndexError. -/
def firstChoice (e : SEvent) : Except String SChoice :=
  match e.choices with
  | none => .ok {}
  | some [] => .error "IndexError: list index out of range"
  | some (c :: _) => .ok c

/-- Everything one loop iteration produces for one parsed event: the
marker chunks of a phase transition, the content chunk, the termination
line, the new `thinking_state`, and whether the generator returns. -/
structure EventOutput where
  markers : List StreamItem
  contentItems : List StreamItem
  doneItems : List StreamItem
  newState : Int
  finished : Bool
deriving DecidableEq

/-- The items of one iteration in yield order: markers, then content, then
the termination line. -/
def EventOutput.items (o : EventOutput) : List StreamItem :=
  o.markers ++ o.contentItems ++ o.doneItems

/-- Lines 242-263, the straight-line part of one loop iteration after the
first choice has been extracted, at `thinking_state = st`: run the state
transitions (lines 245-255, emitting `<think>` or `</think>\n\n`), emit the
content `delta.get("reasoning") or delta.get("content", "")` when truthy
(lines 258-260), and finish when the choice carries a truthy
`finish_reason` (lines 262-264). -/
def stepChoice (model eid : String) (st : Int) (choice : SChoice) : EventOutput :=
  let delta := choice.delta.getD {}
  let stepped :=
    if (st == -1) && pyTruthyStr delta.reasoning then
      (0, [StreamItem.marker ⟨eid, model, "<think>"⟩])
    else if (st == 0) && !(pyTruthyStr delta.reasoning) && pyTruthyStr delta.content then
      (1, [StreamItem.marker ⟨eid, model, "</think>\n\n"⟩])
    else (st, ([] : List StreamItem))
  let text := if pyTruthyStr delta.reasoning then delta.reasoning.getD ""
    else delta.content.getD ""
  let cts := if text.isEmpty then [] else [StreamItem.content ⟨eid, model, text⟩]
  let fin := pyTruthyStr choice.finish_reason
  let dns := if fin then [StreamItem.doneLine] else []
  ⟨stepped.2, cts, dns, stepped.1, fin⟩

/-- Lines 241-263, one iteration of the loop over one parsed event: take
the first choice (possibly raising an IndexError), then run the
straight-line step. -/
def processEvent (model : String) (st : Int) (e : SEvent) : Except String EventOutput :=
  match firstChoice e with
  | .error msg => .error msg
  | .ok choice => .ok (stepChoice model (e.id.getD "") st choice)

/-- How the yielded sequence ended: upstream body exhausted, `return` after
the termination line, or an exception raised out of the generator. -/
inductive StreamOutcome where
  | ended
  | done
  | failed (msg : String)
deriving DecidableEq

/-- The whole observable behaviour of the generator: the yielded items in
order, and how the sequence ended. -/
structure StreamResult where
  items : List StreamItem
  outcome : StreamOutcome
deriving DecidableEq

/-- Lines 236-264, the loop: skip non-data lines, fail on unparseable data
lines, process events, stop consuming input right after the termination
line. -/
def runStream (model : String) (st : Int) : List SLine → StreamResult
  | [] => ⟨[], .ended⟩
  | SLine.other :: rest => runStream model st rest
  | SLine.dataErr msg :: _ => ⟨[], .failed msg⟩
  | SLine.dataOk e :: rest =>
    match processEvent model st e with
    | .error msg => ⟨[], .failed msg⟩
    | .ok out =>
      if out.finished then ⟨out.items, .done⟩
      else
        let r := runStream model out.newState rest
        ⟨out.items ++ r.items, r.outcome⟩

/-- The generator as started by `_handle_streaming_request`:
`thinking_state` initialized to `-1`. -/
def handleStreamingRequest (model : String) (lines : List SLine) : StreamResult :=
  runStream model (-1) lines

/-- Does this line carry a truthy `finish_reason` in its first choice? -/
def lineHasFinish : SLine → Bool
  | .dataOk e =>
    match firstChoice e with
    | .ok c => pyTruthyStr c.finish_reason
    | .error _ => false
  | _ => false

/-- Whether the first-choice extraction succeeds, i.e. the IndexError
branch of `data.get("choices", [{}])[0]` is not taken. -/
def firstChoiceOk (e : SEvent) : Bool :=
  match firstChoice e with
  | .ok _ => true
  | .error _ => false

/-! ## Model listing (Pipe.pipes, lines 89-118) -/

/-- One entry of the fetched `data` list: `id` and `name` fields, possibly
absent. -/
structure ModelEntry where
  id : Option String := none
  name : Option String := none
deriving DecidableEq

/-- The outcome of the fetch-and-parse of `GET {base}/models`: the parsed
`data` list, or any exception raised along the way. -/
inductive FetchOutcome where
  | ok (data : List ModelEntry)
  | failure (exc : String)
deriving DecidableEq

/-- Substring containment over char lists (Python `pat in s`). -/
def containsSub (pat : List Char) : List Char → Bool
  | [] => pat.isEmpty
  | c :: rest => pat.isPrefixOf (c :: rest) || containsSub pat rest

/-- Line 106: `"free" in model.get("id", "").lower()` — `.lower()` maps
`Char.toLower` over the characters, which is what `String.toLower` does. -/
def hasFreeSub (s : String) : Bool :=
  containsSub "free".data (s.data.map Char.toLower)

/-- The `{id, name}` pair built for one entry (lines 110-113). -/
def entryPair (m : ModelEntry) : String × String :=
  (m.id.getD "unknown", m.name.getD "Unknown Model")

/-- Lines 96-118, `Pipe.pipes`: on success, optionally filter to free
models and map to `{id, name}` pairs; on any exception, return the single
synthetic fallback entry. -/
def pipes (freeOnly : Bool) (fetch : FetchOutcome) : List (String × String) :=
  match fetch with
  | .failure exc => [("openrouter", exc)]
  | .ok ms =>
    let ms2 := if freeOnly then ms.filter (fun m => hasFreeSub (m.id.getD "")) else ms
    ms2.map entryPair

/-! ## Concrete fixtures used by closed theorems -/

/-- An event whose only delta field is a reasoning fragment. -/
def evReason (s : String) : SEvent :=
  { choices := some [{ delta := some { reasoning := some s } }] }

/-- An event whose only delta field is a content fragment. -/
def evContent (s : String) : SEvent :=
  { choices := some [{ delta := some { content := some s } }] }

/-- An event whose first choice carries `finish_reason: "stop"` and an
empty delta. -/
def evStop : SEvent :=
  { choices := some [{ delta := some {}, finish_reason := some "stop" }] }

/-- An event with no `choices` key at all. -/
def evNoChoices : SEvent := {}

/-- The upstream line sequence of the specified streaming scenario:
deltas `reasoning:"a"`, `reasoning:"b"`, `content:"c"`, `content:"d"`,
then `finish_reason:"stop"`. -/
def c1Lines : List SLine :=
  [.dataOk (evReason "a"), .dataOk (evReason "b"),
   .dataOk (evContent "c"), .dataOk (evContent "d"), .dataOk evStop]

/-- The upstream sentinel line `data: [DONE]`: it starts with `data: `, so
the loop processes it rather than skipping it, and its payload `[DONE]` is
not valid JSON, so `json.loads` raises on it. -/
def doneSentinel : SLine := .dataErr "json.loads: [DONE] is not valid JSON"

/-- The loop-iteration output for the first reasoning event at state -1. -/
def outThink : EventOutput :=
  ⟨[.marker ⟨"", "m", "<think>"⟩], [.content ⟨"", "m", "a"⟩], [], 0, false⟩

/-- The loop-iteration output for a reasoning event at state 1: the phase
is already terminal, so no marker is emitted and the state is unchanged. -/
def outAns : EventOutput := ⟨[], [.content ⟨"", "m", "a"⟩], [], 1, false⟩

/-- A message carrying both a reasoning and a content field. -/
def msgRC : NMessage :=
  { reasoning := some "R", content := some "C", extra := [("role", .vStr "assistant")] }

/-- A choice whose message carries a reasoning field. -/
def choiceRC : NChoice := { message := some msgRC }

/-- A choice whose message has no reasoning field. -/
def choicePlain : NChoice := { message := some { content := some "x" } }

/-- A concrete non-streaming document with one reasoning choice, one plain
choice and a passthrough field. -/
def docW : NonStreamDoc :=
  { choices := some [choiceRC, choicePlain], extra := [("id", .vStr "gen-1")] }

/-- A concrete request body. -/
def bodyW : PyDict :=
  [("model", .vStr "p.m"), ("messages", .vOpaque 0), ("stream", .vBool true)]

/-- The value `normalizeBody` produces for `bodyW`. -/
def nbW : PyDict :=
  [("model", .vStr "m"), ("messages", .vOpaque 0), ("stream", .vBool true),
   ("include_reasoning", .vBool true)]

/-- A concrete fetched model list: one free entry, one paid entry. -/
def msW : List ModelEntry :=
  [{ id := some "x-FREE-y", name := some "F" }, { id := some "paid", name := some "P" }]

/-! ## Helper lemmas on lists and strings -/

theorem isPrefixOf_iff_exists (p : List Char) :
    ∀ l, p.isPrefixOf l = true ↔ ∃ t, l = p ++ t := by
  induction p with
  | nil => intro l; simp [List.isPrefixOf]
  | cons a as ih =>
    intro l
    cases l with
    | nil => simp [List.isPrefixOf]
    | cons b bs =>
      simp only [List.isPrefixOf, Bool.and_eq_true, beq_iff_eq, ih, List.cons_append,
        List.cons.injEq]
      constructor
      · rintro ⟨hab, t, ht⟩
        exact ⟨t, hab.symm, ht⟩
      · rintro ⟨t, hab, ht⟩
        exact ⟨hab.symm, t, ht⟩

theorem containsSub_iff (pat : List Char) :
    ∀ l, containsSub pat l = true ↔ ∃ pre post, l = pre ++ pat ++ post := by
  intro l
  induction l with
  | nil =>
    simp only [containsSub, List.isEmpty_iff]
    constructor
    · rintro rfl; exact ⟨[], [], rfl⟩
    · rintro ⟨pre, post, h⟩
      rcases List.append_eq_nil.mp h.symm with ⟨h1, h2⟩
      exact (List.append_eq_nil.mp h1).2
  | cons c cs ih =>
    simp only [containsSub, Bool.or_eq_true, isPrefixOf_iff_exists, ih]
    constructor
    · rintro (⟨t, ht⟩ | ⟨pre, post, h⟩)
      · exact ⟨[], t, by simp [ht]⟩
      · exact ⟨c :: pre, post, by simp [h]⟩
    · rintro ⟨pre, post, h⟩
      cases pre with
      | nil => exact Or.inl ⟨post, by simpa using h⟩
      | cons x xs =>
        right
        simp only [List.cons_append, List.cons.injEq] at h
        exact ⟨xs, post, h.2⟩

theorem removeFirstOcc_nil_pat : ∀ l, removeFirstOcc [] l = l := by
  intro l
  cases l with
  | nil => rfl
  | cons c rest => simp [removeFirstOcc, List.isPrefixOf]

theorem removeFirstOcc_of_not_contains (pat : List Char) :
    ∀ l, containsSub pat l = false → removeFirstOcc pat l = l := by
  intro l
  induction l with
  | nil => intro _; rfl
  | cons c cs ih =>
    intro h
    simp only [containsSub, Bool.or_eq_false_iff] at h
    simp [removeFirstOcc, h.1, ih h.2]

theorem removeFirstOcc_of_first (pat : List Char) :
    ∀ pre post : List Char,
      (∀ i, i < pre.length → pat.isPrefixOf ((pre ++ pat ++ post).drop i) = false) →
      removeFirstOcc pat (pre ++ pat ++ post) = pre ++ post := by
  intro pre
  induction pre with
  | nil =>
    intro post _
    simp only [List.nil_append]
    cases pat with
    | nil => exact removeFirstOcc_nil_pat post
    | cons a as =>
      have hpre : (a :: as).isPrefixOf ((a :: as) ++ post) = true :=
        (isPrefixOf_iff_exists (a :: as) ((a :: as) ++ post)).mpr ⟨post, rfl⟩
      show removeFirstOcc (a :: as) (a :: (as ++ post)) = post
      simp only [removeFirstOcc]
      rw [if_pos (by exact_mod_cast hpre)]
      exact List.drop_left (a :: as) post
  | cons x xs ih =>
    intro post h
    have h0 : pat.isPrefixOf (x :: (xs ++ pat ++ post)) = false := by
      have := h 0 (by simp)
      simpa using this
    show removeFirstOcc pat (x :: (xs ++ pat ++ post)) = x :: (xs ++ post)
    simp only [removeFirstOcc]
    rw [if_neg (by simp only [h0]; exact Bool.false_ne_true)]
    have h2 : ∀ i, i < xs.length →
        pat.isPrefixOf ((xs ++ pat ++ post).drop i) = false := by
      intro i hi
      have := h (i + 1) (by simpa using Nat.succ_lt_succ hi)
      simpa using this
    rw [ih post h2]

/-! ## Helper lemmas on dict operations -/

theorem lookup_map_overwrite (k : String) (v : PyVal) :
    ∀ d : PyDict, d.any (fun p => p.1 == k) = true →
      List.lookup k (d.map (fun p => if p.1 == k then (k, v) else p)) = some v := by
  intro d
  induction d with
  | nil => intro h; simp at h
  | cons p rest ih =>
    intro h
    obtain ⟨a, b⟩ := p
    rw [List.map_cons]
    by_cases hak : a = k
    · subst hak
      rw [if_pos (by simp)]
      simp [List.lookup_cons]
    · rw [if_neg (by simp [hak])]
      have h2 : rest.any (fun p => p.1 == k) = true := by
        simp only [List.any_cons, Bool.or_eq_true] at h
        rcases h with h1 | h1
        · exact absurd (by simpa using h1) hak
        · exact h1
      have hka : (k == a) = false := beq_eq_false_iff_ne.mpr (fun he => hak he.symm)
      rw [List.lookup_cons]
      simpa [hka] using ih h2

theorem lookup_append_new (k : String) (v : PyVal) :
    ∀ d : PyDict, d.any (fun p => p.1 == k) = false →
      List.lookup k (d ++ [(k, v)]) = some v := by
  intro d
  induction d with
  | nil => simp [List.lookup_cons]
  | cons p rest ih =>
    intro h
    obtain ⟨a, b⟩ := p
    simp only [List.any_cons, Bool.or_eq_false_iff] at h
    have hka : (k == a) = false := by
      have hne : a ≠ k := by simpa using h.1
      exact beq_eq_false_iff_ne.mpr (fun he => hne he.symm)
    rw [List.cons_append, List.lookup_cons]
    simp [hka, ih h.2]

/-- Python `d[k] = v` makes a later `d.get(k)` return `v`. -/
theorem lookup_dictSet_self (k : String) (v : PyVal) (d : PyDict) :
    List.lookup k (dictSet d k v) = some v := by
  unfold dictSet
  by_cases h : d.any (fun p => p.1 == k) = true
  · rw [if_pos h]; exact lookup_map_overwrite k v d h
  · have h2 : d.any (fun p => p.1 == k) = false := by
      cases hx : d.any (fun p => p.1 == k)
      · rfl
      · exact absurd hx h
    rw [if_neg (by simp [h2])]
    exact lookup_append_new k v d h2

theorem lookup_map_overwrite_ne (k k2 : String) (v : PyVal) (hne : k2 ≠ k) :
    ∀ d : PyDict,
      List.lookup k2 (d.map (fun p => if p.1 == k then (k, v) else p)) =
        List.lookup k2 d := by
  intro d
  induction d with
  | nil => rfl
  | cons p rest ih =>
    obtain ⟨a, b⟩ := p
    rw [List.map_cons]
    by_cases hak : a = k
    · subst hak
      rw [if_pos (by simp)]
      have hk2a : (k2 == a) = false := beq_eq_false_iff_ne.mpr hne
      rw [List.lookup_cons, List.lookup_cons]
      simpa [hk2a] using ih
    · rw [if_neg (by simp [hak])]
      rw [List.lookup_cons, List.lookup_cons]
      cases hk2a : (k2 == a) with
      | true => simp [hk2a]
      | false => simpa [hk2a] using ih

theorem lookup_append_ne (k k2 : String) (v : PyVal) (hne : k2 ≠ k) :
    ∀ d : PyDict, List.lookup k2 (d ++ [(k, v)]) = List.lookup k2 d := by
  intro d
  induction d with
  | nil =>
    have hk2 : (k2 == k) = false := beq_eq_false_iff_ne.mpr hne
    simp [List.lookup_cons, hk2]
  | cons p rest ih =>
    obtain ⟨a, b⟩ := p
    rw [List.cons_append, List.lookup_cons, List.lookup_cons]
    cases hk2a : (k2 == a) with
    | true => simp [hk2a]
    | false => simp [hk2a, ih]

/-- Python `d[k] = v` leaves every other key's value untouched. -/
theorem lookup_dictSet_ne (k k2 : String) (v : PyVal) (hne : k2 ≠ k) (d : PyDict) :
    List.lookup k2 (dictSet d k v) = List.lookup k2 d := by
  unfold dictSet
  by_cases h : d.any (fun p => p.1 == k) = true
  · rw [if_pos h]; exact lookup_map_overwrite_ne k k2 v hne d
  · rw [if_neg h]; exact lookup_append_ne k k2 v hne d

/-! ## Helper lemmas on the streaming step -/

theorem stepChoice_finished (m eid : String) (st : Int) (c : SChoice) :
    (stepChoice m eid st c).finished = pyTruthyStr c.finish_reason := rfl

theorem stepChoice_doneItems (m eid : String) (st : Int) (c : SChoice) :
    (stepChoice m eid st c).doneItems =
      if pyTruthyStr c.finish_reason then [StreamItem.doneLine] else [] := rfl

theorem stepChoice_markers_shape (m eid : String) (st : Int) (c : SChoice) :
    (stepChoice m eid st c).markers = [] ∨
      ∃ oc, (stepChoice m eid st c).markers = [StreamItem.marker oc] := by
  simp only [stepChoice]
  split_ifs <;> simp

theorem stepChoice_contents_shape (m eid : String) (st : Int) (c : SChoice) :
    (stepChoice m eid st c).contentItems = [] ∨
      ∃ oc, (stepChoice m eid st c).contentItems = [StreamItem.content oc] := by
  simp only [stepChoice]
  split_ifs <;> simp

theorem stepChoice_terminal (m eid : String) (c : SChoice) :
    (stepChoice m eid 1 c).newState = 1 ∧ (stepChoice m eid 1 c).markers = [] := by
  simp only [stepChoice]
  norm_num

theorem stepChoice_mono (m eid : String) (st : Int) (c : SChoice)
    (h : st = -1 ∨ st = 0 ∨ st = 1) :
    st ≤ (stepChoice m eid st c).newState ∧
      ((stepChoice m eid st c).newState = -1 ∨ (stepChoice m eid st c).newState = 0 ∨
        (stepChoice m eid st c).newState = 1) := by
  simp only [stepChoice]
  split_ifs with h1 h2
  · have hst : st = -1 := by
      have := (Bool.and_eq_true _ _).mp h1
      exact beq_iff_eq.mp this.1
    simp [hst]
  · have hst : st = 0 := by
      have := (Bool.and_eq_true _ _).mp h2
      have := (Bool.and_eq_true _ _).mp this.1
      exact beq_iff_eq.mp this.1
    simp [hst]
  · rcases h with h | h | h <;> simp [h]

theorem doneLine_not_mem_of_not_finished (m eid : String) (st : Int) (c : SChoice)
    (h : (stepChoice m eid st c).finished = false) :
    StreamItem.doneLine ∉ (stepChoice m eid st c).items := by
  have hd : (stepChoice m eid st c).doneItems = [] := by
    rw [stepChoice_doneItems]
    rw [stepChoice_finished] at h
    simp [h]
  rcases stepChoice_markers_shape m eid st c with hm | ⟨oc, hm⟩ <;>
    rcases stepChoice_contents_shape m eid st c with hc | ⟨oc2, hc⟩ <;>
      simp [EventOutput.items, hm, hc, hd]

theorem doneLine_mem_of_finished (m eid : String) (st : Int) (c : SChoice)
    (h : (stepChoice m eid st c).finished = true) :
    StreamItem.doneLine ∈ (stepChoice m eid st c).items := by
  have hd : (stepChoice m eid st c).doneItems = [StreamItem.doneLine] := by
    rw [stepChoice_doneItems]
    rw [stepChoice_finished] at h
    simp [h]
  simp [EventOutput.items, hd]

theorem getLast_of_finished (m eid : String) (st : Int) (c : SChoice)
    (h : (stepChoice m eid st c).finished = true) :
    (stepChoice m eid st c).items.getLast? = some StreamItem.doneLine := by
  have hd : (stepChoice m eid st c).doneItems = [StreamItem.doneLine] := by
    rw [stepChoice_doneItems]
    rw [stepChoice_finished] at h
    simp [h]
  rw [EventOutput.items, hd]
  exact List.getLast?_concat _

theorem filter_isMarker_of_no_markers (m eid : String) (st : Int) (c : SChoice)
    (h : (stepChoice m eid st c).markers = []) :
    (stepChoice m eid st c).items.filter isMarker = [] := by
  have hd := stepChoice_doneItems m eid st c
  rcases stepChoice_contents_shape m eid st c with hc | ⟨oc2, hc⟩ <;>
    cases hf : pyTruthyStr c.finish_reason <;>
      rw [hf] at hd <;>
        simp [EventOutput.items, h, hc, hd, List.filter_append, isMarker]

/-! ## Helper lemmas on the streaming loop -/

theorem processEvent_finished_eq (m : String) (st : Int) (e : SEvent) (choice : SChoice)
    (hfc : firstChoice e = .ok choice) :
    lineHasFinish (SLine.dataOk e) = (stepChoice m (e.id.getD "") st choice).finished := by
  simp [lineHasFinish, hfc, stepChoice_finished]

theorem runStream_done_iff (m : String) :
    ∀ (lines : List SLine) (st : Int),
      StreamItem.doneLine ∈ (runStream m st lines).items ↔
        (runStream m st lines).outcome = .done := by
  intro lines
  induction lines with
  | nil => intro st; simp [runStream]
  | cons l rest ih =>
    intro st
    cases l with
    | other => simpa [runStream] using ih st
    | dataErr msg => simp [runStream]
    | dataOk e =>
      cases hfc : firstChoice e with
      | error msg => simp [runStream, processEvent, hfc]
      | ok choice =>
        cases hf : (stepChoice m (e.id.getD "") st choice).finished with
        | true =>
          simp only [runStream, processEvent, hfc, hf]
          simp [doneLine_mem_of_finished m (e.id.getD "") st choice hf]
        | false =>
          simp only [runStream, processEvent, hfc, hf]
          simp [List.mem_append,
            doneLine_not_mem_of_not_finished m (e.id.getD "") st choice hf,
            ih ((stepChoice m (e.id.getD "") st choice).newState)]

theorem runStream_no_marker (m : String) :
    ∀ lines : List SLine, (runStream m 1 lines).items.filter isMarker = [] := by
  intro lines
  induction lines with
  | nil => simp [runStream]
  | cons l rest ih =>
    cases l with
    | other => simpa [runStream] using ih
    | dataErr msg => simp [runStream]
    | dataOk e =>
      cases hfc : firstChoice e with
      | error msg => simp [runStream, processEvent, hfc]
      | ok choice =>
        have ht := stepChoice_terminal m (e.id.getD "") choice
        cases hf : (stepChoice m (e.id.getD "") 1 choice).finished with
        | true =>
          simp only [runStream, processEvent, hfc, hf]
          simp [filter_isMarker_of_no_markers m (e.id.getD "") 1 choice ht.2]
        | false =>
          simp only [runStream, processEvent, hfc, hf]
          simp [List.filter_append,
            filter_isMarker_of_no_markers m (e.id.getD "") 1 choice ht.2, ht.1, ih]

theorem runStream_no_finish_no_done (m : String) :
    ∀ (lines : List SLine) (st : Int),
      (∀ l ∈ lines, lineHasFinish l = false) →
        StreamItem.doneLine ∉ (runStream m st lines).items := by
  intro lines
  induction lines with
  | nil => intro st _; simp [runStream]
  | cons l rest ih =>
    intro st h
    have hl := h l (by simp)
    have hrest : ∀ l2 ∈ rest, lineHasFinish l2 = false := by
      intro l2 hl2
      exact h l2 (by simp [hl2])
    cases l with
    | other => simpa [runStream] using ih st hrest
    | dataErr msg => simp [runStream]
    | dataOk e =>
      cases hfc : firstChoice e with
      | error msg => simp [runStream, processEvent, hfc]
      | ok choice =>
        have hfin : (stepChoice m (e.id.getD "") st choice).finished = false := by
          rw [← processEvent_finished_eq m st e choice hfc]
          exact hl
        simp only [runStream, processEvent, hfc, hfin]
        simp [List.mem_append,
          doneLine_not_mem_of_not_finished m (e.id.getD "") st choice hfin,
          ih ((stepChoice m (e.id.getD "") st choice).newState) hrest]

theorem runStream_finish_head (m : String) (st : Int) (l : SLine) (rest : List SLine)
    (h : lineHasFinish l = true) :
    runStream m st (l :: rest) = runStream m st [l] ∧
      (runStream m st (l :: rest)).outcome = .done ∧
      (runStream m st (l :: rest)).items.getLast? = some StreamItem.doneLine := by
  cases l with
  | other => simp [lineHasFinish] at h
  | dataErr msg => simp [lineHasFinish] at h
  | dataOk e =>
    cases hfc : firstChoice e with
    | error msg => simp [lineHasFinish, hfc] at h
    | ok choice =>
      have hfin : (stepChoice m (e.id.getD "") st choice).finished = true := by
        rw [← processEvent_finished_eq m st e choice hfc]
        exact h
      refine ⟨?_, ?_, ?_⟩
      · simp [runStream, processEvent, hfc, hfin]
      · simp [runStream, processEvent, hfc, hfin]
      · simp only [runStream, processEvent, hfc, hfin, if_pos trivial]
        exact getLast_of_finished m (e.id.getD "") st choice hfin

/-! ## Helper lemmas on the non-streaming reshape and the normalizer -/

theorem reshapeChoice_safe (c : NChoice) (h : choiceSafe c = true) :
    reshapeChoice c = .ok (specReshapeChoice c) := by
  obtain ⟨msg, ex⟩ := c
  cases msg with
  | none => rfl
  | some m =>
    obtain ⟨r, ct, mex⟩ := m
    cases r with
    | none => rfl
    | some rv =>
      cases ct with
      | none => simp [choiceSafe] at h
      | some cv => rfl

theorem reshapeChoices_safe :
    ∀ cs : List NChoice, (∀ c ∈ cs, choiceSafe c = true) →
      reshapeChoices cs = .ok (cs.map specReshapeChoice) := by
  intro cs
  induction cs with
  | nil => intro _; rfl
  | cons c rest ih =>
    intro h
    have hc := reshapeChoice_safe c (h c (by simp))
    have hr := ih (fun c2 hc2 => h c2 (by simp [hc2]))
    simp [reshapeChoices, hc, hr]

theorem normalizeModel_no_occ (s : String)
    (h : containsSub reasoningPat (splitDotTail s).data = false) :
    normalizeModel s = splitDotTail s := by
  unfold normalizeModel
  rw [removeFirstOcc_of_not_contains _ _ h]

/-! ## Claim theorems -/

/-- C1: for upstream data events with deltas `reasoning:"a"`, `reasoning:"b"`,
`content:"c"`, `content:"d"`, then an event whose first choice carries
`finish_reason:"stop"`, the emitted chunk contents are exactly, in order:
the literal `<think>`, "a", "b", the literal `</think>` followed by two
newlines, "c", "d", then the literal termination line, after which the
sequence ends with no further chunks. -/
theorem c1_streaming_scenario :
    (handleStreamingRequest "m" c1Lines).items.map itemText =
      ["<think>", "a", "b", "</think>\n\n", "c", "d", "data: [DONE]\n\n"] ∧
    (handleStreamingRequest "m" c1Lines).outcome = .done := ⟨rfl, rfl⟩

/-- C2 (code bug in the source): the claim says every exception raised
during the normalize step is caught at the outermost boundary of `pipe` and
converted to a JSON error string; but normalization (lines 133-140) runs
before the `try` (line 142), so for the body `{"model": True}` the
AttributeError raised while rewriting the model id escapes the call instead
of being converted. -/
theorem c2_normalize_exception_escapes :
    pipe [("model", PyVal.vBool true)] =
      .raised "AttributeError: split on non-str" := rfl

/-- C2 auxiliary fact, same code bug: on the non-raising path `pipe` only
returns the unexecuted generator or coroutine, so the except branch that
builds the JSON error string is unreachable and exceptions of the HTTP
call or reshape occur only after `pipe` has returned. -/
theorem pipe_never_error_json :
    ∀ body : PyDict,
      (∃ msg, pipe body = .raised msg) ∨ (∃ r, pipe body = .returned r) := by
  intro body
  unfold pipe
  cases hn : normalizeBody body with
  | error msg => exact Or.inl ⟨msg, rfl⟩
  | ok nb =>
    unfold dispatch
    by_cases hs : pyTruthyVal (List.lookup "stream" body) = true
    · exact Or.inr ⟨.streamGen nb, by simp [hs]⟩
    · exact Or.inr ⟨.normalCoro nb, by simp [hs]⟩

/-- C3 (amended): normalization splits on the first `.` keeping the tail,
then removes the first occurrence of "reasoning/" anywhere in that tail, at
most once — not only a prefix occurrence: a tail containing no occurrence
is unchanged, the leftmost occurrence is deleted wherever it sits, and
"a.b.reasoning/c" normalizes to "b.c". -/
theorem c3_normalize_first_occurrence :
    (∀ s : String, containsSub reasoningPat (splitDotTail s).data = false →
      normalizeModel s = splitDotTail s) ∧
    (∀ (s : String) (pre post : List Char),
      (splitDotTail s).data = pre ++ reasoningPat ++ post →
      (∀ i, i < pre.length →
        reasoningPat.isPrefixOf ((splitDotTail s).data.drop i) = false) →
      normalizeModel s = String.mk (pre ++ post)) ∧
    normalizeModel "a.b.reasoning/c" = "b.c" := by
  refine ⟨?_, ?_, by decide⟩
  · intro s h
    exact normalizeModel_no_occ s h
  · intro s pre post hdec hfirst
    rw [hdec] at hfirst
    unfold normalizeModel
    rw [hdec, removeFirstOcc_of_first reasoningPat pre post hfirst]

/-- C3 counterexample: the code removes a "reasoning/" occurrence that is
not a prefix of the post-split segment, so "a.b.reasoning/c" gives "b.c"
while the spec's prefix-only rule gives "b.reasoning/c". -/
theorem c3_counterexample :
    normalizeModel "a.b.reasoning/c" = "b.c" ∧
    specNormalizeModel "a.b.reasoning/c" = "b.reasoning/c" ∧
    normalizeModel "a.b.reasoning/c" ≠ specNormalizeModel "a.b.reasoning/c" := by
  refine ⟨by decide, by decide, by decide⟩

/-- Witness for C3: both conjuncts of the amended theorem instantiated at
concrete model ids, hypotheses discharged by evaluation. -/
theorem c3_witness :
    normalizeModel "x.plain" = splitDotTail "x.plain" ∧
    normalizeModel "a.b.reasoning/c" = String.mk ("b.".data ++ "c".data) := by
  constructor
  · exact c3_normalize_first_occurrence.1 "x.plain" (by decide)
  · exact c3_normalize_first_occurrence.2.1 "a.b.reasoning/c" "b.".data "c".data
      (by decide) (by decide)

/-- C4: the streaming phase is monotone: from any reachable state the state
only moves forward along -1 (NOT_STARTED) → 0 (REASONING) → 1 (ANSWERED);
at state 1 an event — even one re-introducing a reasoning fragment — emits
no marker chunk and leaves the state unchanged, and a whole run started at
state 1 never emits a marker chunk. -/
theorem c4_phase_monotone :
    (∀ (m : String) (st : Int) (e : SEvent), (st = -1 ∨ st = 0 ∨ st = 1) →
      ∀ out, processEvent m st e = .ok out →
        st ≤ out.newState ∧
          (out.newState = -1 ∨ out.newState = 0 ∨ out.newState = 1)) ∧
    (∀ (m : String) (e : SEvent) (out : EventOutput),
      processEvent m 1 e = .ok out → out.newState = 1 ∧ out.markers = []) ∧
    (∀ (m : String) (lines : List SLine),
      (runStream m 1 lines).items.filter isMarker = []) := by
  refine ⟨?_, ?_, ?_⟩
  · intro m st e hst out hpe
    cases hfc : firstChoice e with
    | error msg => simp [processEvent, hfc] at hpe
    | ok choice =>
      simp only [processEvent, hfc, Except.ok.injEq] at hpe
      subst hpe
      exact stepChoice_mono m (e.id.getD "") st choice hst
  · intro m e out hpe
    cases hfc : firstChoice e with
    | error msg => simp [processEvent, hfc] at hpe
    | ok choice =>
      simp only [processEvent, hfc, Except.ok.injEq] at hpe
      subst hpe
      exact stepChoice_terminal m (e.id.getD "") choice
  · exact fun m lines => runStream_no_marker m lines

/-- Witness for C4: the monotone step at state -1 on a reasoning event and
the terminal step at state 1, hypotheses discharged by evaluation. -/
theorem c4_witness :
    ((-1 : Int) ≤ outThink.newState ∧
      (outThink.newState = -1 ∨ outThink.newState = 0 ∨ outThink.newState = 1)) ∧
    (outAns.newState = 1 ∧ outAns.markers = []) :=
  ⟨c4_phase_monotone.1 "m" (-1) (evReason "a") (Or.inl rfl) outThink rfl,
   c4_phase_monotone.2.1 "m" (evReason "a") outAns rfl⟩

/-- C5: the termination line is emitted iff the run ended by seeing a
truthy `finish_reason`; a line carrying one makes the run end right there —
the rest of the input is never consumed and the last emitted item is the
termination line; and a body without any such line never produces the
termination line (the sequence just ends). -/
theorem c5_done_iff_finish :
    (∀ (m : String) (st : Int) (lines : List SLine),
      StreamItem.doneLine ∈ (runStream m st lines).items ↔
        (runStream m st lines).outcome = .done) ∧
    (∀ (m : String) (st : Int) (l : SLine) (rest : List SLine),
      lineHasFinish l = true →
        runStream m st (l :: rest) = runStream m st [l] ∧
          (runStream m st (l :: rest)).outcome = .done ∧
          (runStream m st (l :: rest)).items.getLast? = some StreamItem.doneLine) ∧
    (∀ (m : String) (st : Int) (lines : List SLine),
      (∀ l ∈ lines, lineHasFinish l = false) →
        StreamItem.doneLine ∉ (runStream m st lines).items) :=
  ⟨fun m st lines => runStream_done_iff m lines st,
   fun m st l rest h => runStream_finish_head m st l rest h,
   fun m st lines h => runStream_no_finish_no_done m lines st h⟩

/-- Witness for C5: a finish line followed by unconsumed input, and a
finish-free body, hypotheses discharged by evaluation. -/
theorem c5_witness :
    (runStream "m" (-1) [SLine.dataOk evStop, SLine.other] =
        runStream "m" (-1) [SLine.dataOk evStop] ∧
      (runStream "m" (-1) [SLine.dataOk evStop, SLine.other]).outcome = .done ∧
      (runStream "m" (-1) [SLine.dataOk evStop, SLine.other]).items.getLast? =
        some StreamItem.doneLine) ∧
    StreamItem.doneLine ∉ (runStream "m" (-1) [SLine.dataOk (evContent "c")]).items :=
  ⟨c5_done_iff_finish.2.1 "m" (-1) (SLine.dataOk evStop) [SLine.other] (by decide),
   c5_done_iff_finish.2.2 "m" (-1) [SLine.dataOk (evContent "c")] (by decide)⟩

/-- C6: the non-streaming reshape maps each entry of the choices list as
the spec-side description does — a message carrying reasoning R and content
C gets content `<think>R</think>` + newline + C, an entry without a
reasoning field is unmodified — and everything else in the document is
returned unchanged; a document without a choices key is returned as is. -/
theorem c6_normal_reshape :
    ∀ d : NonStreamDoc,
      (d.choices = none → handleNormalReshape d = .ok d) ∧
      (∀ cs, d.choices = some cs → (∀ c ∈ cs, choiceSafe c = true) →
        handleNormalReshape d =
          .ok { d with choices := some (cs.map specReshapeChoice) }) := by
  intro d
  constructor
  · intro h
    simp [handleNormalReshape, h]
  · intro cs h hsafe
    simp [handleNormalReshape, h, reshapeChoices_safe cs hsafe]

/-- Witness for C6: the reshape of a concrete two-choice document with a
passthrough field, hypotheses discharged by evaluation. -/
theorem c6_witness :
    handleNormalReshape docW =
      .ok { docW with choices := some ([choiceRC, choicePlain].map specReshapeChoice) } :=
  (c6_normal_reshape docW).2 [choiceRC, choicePlain] rfl (by decide)

/-- C7: the normalizer works on a copy of the caller's mapping (the model
of lines 133-140 applies every write to the copy that is returned, never to
the input), and in the produced mapping every key other than `model` and
`include_reasoning` has exactly the input's value, while
`include_reasoning` is set to True. -/
theorem c7_normalize_frame :
    ∀ body out : PyDict, normalizeBody body = .ok out →
      (∀ k, k ≠ "model" → k ≠ "include_reasoning" →
        List.lookup k out = List.lookup k body) ∧
      List.lookup "include_reasoning" out = some (PyVal.vBool true) := by
  intro body out h
  cases hm : List.lookup "model" body with
  | none =>
    simp only [normalizeBody, hm, Except.ok.injEq] at h
    subst h
    exact ⟨fun k hk1 hk2 => lookup_dictSet_ne _ k _ hk2 body,
      lookup_dictSet_self _ _ body⟩
  | some v =>
    cases v with
    | vStr s =>
      simp only [normalizeBody, hm, Except.ok.injEq] at h
      subst h
      refine ⟨fun k hk1 hk2 => ?_, lookup_dictSet_self _ _ _⟩
      rw [lookup_dictSet_ne "include_reasoning" k (PyVal.vBool true) hk2,
        lookup_dictSet_ne "model" k (PyVal.vStr (normalizeModel s)) hk1]
    | vBool b => simp [normalizeBody, hm] at h
    | vInt n => simp [normalizeBody, hm] at h
    | vOpaque t => simp [normalizeBody, hm] at h

/-- Witness for C7: a passthrough key of a concrete body is preserved and
the reasoning-inclusion flag is set, hypotheses discharged by evaluation. -/
theorem c7_witness :
    List.lookup "messages" nbW = List.lookup "messages" bodyW ∧
    List.lookup "include_reasoning" nbW = some (PyVal.vBool true) :=
  ⟨(c7_normalize_frame bodyW nbW rfl).1 "messages" (by decide) (by decide),
   (c7_normalize_frame bodyW nbW rfl).2⟩

/-- C8: the model listing never propagates a failure: on any exception it
returns exactly the single fallback entry with id "openrouter" and the
stringified error as name; with the free-only flag it returns exactly the
fetched entries whose id contains "free" case-insensitively, mapped to
{id, name} pairs — where containing "free" is characterized as a substring
decomposition of the lowercased id. -/
theorem c8_pipes :
    (∀ (freeOnly : Bool) (exc : String),
      pipes freeOnly (.failure exc) = [("openrouter", exc)]) ∧
    (∀ ms : List ModelEntry,
      pipes true (.ok ms) =
        (ms.filter (fun m => hasFreeSub (m.id.getD ""))).map entryPair) ∧
    (∀ s : String, hasFreeSub s = true ↔
      ∃ pre post, s.data.map Char.toLower = pre ++ "free".data ++ post) := by
  refine ⟨fun freeOnly exc => rfl, fun ms => by simp [pipes], ?_⟩
  intro s
  exact containsSub_iff "free".data (s.data.map Char.toLower)

/-- Witness for C8: the fallback entry, the filter on a concrete fetched
list, and a concrete free id, via the claim theorem. -/
theorem c8_witness :
    pipes false (.failure "boom") = [("openrouter", "boom")] ∧
    pipes true (.ok msW) =
      (msW.filter (fun m => hasFreeSub (m.id.getD ""))).map entryPair ∧
    hasFreeSub "x-FREE-y" = true :=
  ⟨c8_pipes.1 false "boom", c8_pipes.2.1 msW,
   (c8_pipes.2.2 "x-FREE-y").mpr ⟨"x-".data, "-y".data, by decide⟩⟩

/-- C9: for an event whose choices list is absent or non-empty, the
first-choice extraction never takes its error branch; and an absent
choices list behaves as an empty delta: no chunk, no phase change, no
termination. -/
theorem c9_first_choice_safe :
    ∀ e : SEvent,
      ((e.choices = none ∨ ∃ c cs, e.choices = some (c :: cs)) →
        firstChoiceOk e = true) ∧
      (∀ (m : String) (st : Int), e.choices = none →
        processEvent m st e = .ok ⟨[], [], [], st, false⟩) := by
  intro e
  constructor
  · rintro (h | ⟨c, cs, h⟩) <;> simp [firstChoiceOk, firstChoice, h]
  · intro m st h
    simp [processEvent, firstChoice, h, stepChoice, pyTruthyStr]
    decide

/-- Witness for C9: both safe shapes and the empty-delta behaviour at
concrete events, hypotheses discharged by evaluation. -/
theorem c9_witness :
    firstChoiceOk evNoChoices = true ∧
    firstChoiceOk (evReason "a") = true ∧
    processEvent "m" 5 evNoChoices = .ok ⟨[], [], [], 5, false⟩ :=
  ⟨(c9_first_choice_safe evNoChoices).1 (Or.inl rfl),
   (c9_first_choice_safe (evReason "a")).1 (Or.inr ⟨_, _, rfl⟩),
   (c9_first_choice_safe evNoChoices).2 "m" 5 rfl⟩

/-- C10: a `data: [DONE]` line arriving before any finish-reason event is
processed as a data line whose payload fails to parse: the sequence fails
right there — chunks emitted before it stand, nothing after it is consumed,
and the upstream sentinel is never recognized as a termination signal. -/
theorem c10_done_sentinel_raises :
    (∀ (m : String) (st : Int) (rest : List SLine),
      runStream m st (doneSentinel :: rest) =
        ⟨[], .failed "json.loads: [DONE] is not valid JSON"⟩) ∧
    handleStreamingRequest "m"
        [SLine.dataOk (evContent "x"), doneSentinel, SLine.dataOk evStop] =
      ⟨[StreamItem.content ⟨"", "m", "x"⟩],
        .failed "json.loads: [DONE] is not valid JSON"⟩ :=
  ⟨fun _ _ _ => rfl, rfl⟩

end OpenRouter
